import Mathlib

/-!
Verification of `src/platform_support.py` (repository `odzhan/modarith`).

The file is a collection of cross-platform helpers for generator scripts.
We shallowly embed each Python function as a Lean definition.  Operating
system facilities that the Python code calls (the process environment,
`shutil.which`, `os.unlink` / `Path.unlink`, `shutil.rmtree`) are modelled
as explicit parameters: an environment lookup `env : String → Option String`,
an executable resolver `which : String → Option String`, and a small
filesystem state for the deletion helpers.  The process-wide platform flag
`IS_WINDOWS = (os.name == "nt")` becomes an explicit boolean parameter
`is_windows` threaded through every function that reads it.

Python strings are modelled as Lean `String`; `str.lower()` is modelled as
character-wise ASCII lowercasing (`Char.toLower`), which agrees with Python
on every character occurring in the suffixes the code checks (`.exe`,
`.dll`, `.so`).  `str.endswith(t)` is modelled by `pyEndsWith` below.
Python truthiness of an optional string (`if found:`) is: the value is
present and non-empty.
-/

namespace PlatformSupport

/-- Model of Python `str.endswith` on the underlying character lists:
`l` ends with `suf` iff the last `suf.length` characters of `l` equal `suf`. -/
def listEndsWith (l suf : List Char) : Bool :=
  l.drop (l.length - suf.length) == suf

/-- Model of Python `s.endswith(suffix)`. -/
def pyEndsWith (s suffix : String) : Bool :=
  listEndsWith s.data suffix.data

/-- Model of Python `s.lower()` (character-wise ASCII lowercasing). -/
def pyLower (s : String) : String :=
  ⟨s.data.map Char.toLower⟩

/-- Embedding of `exe_name(name)`:
`suffix = ".exe" if IS_WINDOWS else ""`; `lname = name.lower()`;
`if lname.endswith(suffix): return name`; `return f"{name}{suffix}"`. -/
def exe_name (is_windows : Bool) (name : String) : String :=
  let suffix := if is_windows then (".exe") else ("")
  let lname := pyLower name
  if pyEndsWith lname suffix then name else name ++ suffix

/-- Embedding of `shared_lib_name(name)`:
`suffix = ".dll" if IS_WINDOWS else ".so"`; `lname = name.lower()`;
`if lname.endswith(suffix): return name`; `return f"{name}{suffix}"`. -/
def shared_lib_name (is_windows : Bool) (name : String) : String :=
  let suffix := if is_windows then (".dll") else (".so")
  let lname := pyLower name
  if pyEndsWith lname suffix then name else name ++ suffix

/- Basic lemmas about the string model. -/

theorem listEndsWith_nil (l : List Char) : listEndsWith l [] = true := by
  simp [listEndsWith]

theorem listEndsWith_append (a suf : List Char) :
    listEndsWith (a ++ suf) suf = true := by
  simp [listEndsWith, List.length_append]

theorem pyEndsWith_empty (s : String) : pyEndsWith s ("") = true := by
  simpa [pyEndsWith] using listEndsWith_nil s.data

theorem pyEndsWith_append (s t : String) : pyEndsWith (s ++ t) t = true := by
  simpa [pyEndsWith, String.data_append] using listEndsWith_append s.data t.data

theorem pyLower_append (s t : String) :
    pyLower (s ++ t) = pyLower s ++ pyLower t := by
  apply String.ext
  simp [pyLower, String.data_append]

/-- Embedding of `python_cmd()`.  `sys.executable` (a string that may be
empty, or absent) is the parameter `executable`; Python truthiness of
`if sys.executable:` is "present and non-empty". -/
def python_cmd (is_windows : Bool) (executable : Option String) : String :=
  match executable with
  | some e => if e = "" then (if is_windows then ("python") else ("python3")) else e
  | none => if is_windows then ("python") else ("python3")

/-- The loop `for candidate in candidates: found = shutil.which(candidate);
if found: return found`, with `shutil.which` as the oracle `which`:
return the first truthy (present, non-empty) resolution. -/
def which_first (which : String → Option String) : List String → Option String
  | [] => none
  | c :: rest =>
    match which c with
    | some f => if f = "" then which_first which rest else some f
    | none => which_first which rest

/-- The assignment `configured = os.environ.get("ADDCHAIN", "addchain")`. -/
def configuredAddchain (env : String → Option String) : String :=
  (env ("ADDCHAIN")).getD ("addchain")

/-- The candidate list `candidates = [configured]`, then
`if IS_WINDOWS and not configured.lower().endswith(".exe"):
candidates.append(f"{configured}.exe")`. -/
def addchainCandidates (is_windows : Bool) (configured : String) : List String :=
  if is_windows && !(pyEndsWith (pyLower configured) ".exe") then
    [configured, configured ++ ".exe"]
  else
    [configured]

/-- The message of the `FileNotFoundError` raised by `addchain_executable`. -/
def addchainNotFoundMsg : String :=
  "addchain executable not found. Build it from https://github.com/mmcloughlin/addchain and ensure it (or the ADDCHAIN env var) is on your PATH."

/-- Embedding of `addchain_executable()`.  The process environment and
`shutil.which` are the oracles `env` and `which`; raising
`FileNotFoundError(msg)` becomes `Except.error msg`. -/
def addchain_executable (is_windows : Bool) (env which : String → Option String) :
    Except String String :=
  let configured := configuredAddchain env
  match which_first which (addchainCandidates is_windows configured) with
  | some found => Except.ok found
  | none => Except.error addchainNotFoundMsg

/-- Embedding of `find_size_tool()`:
`for tool in ("size", "llvm-size"): found = shutil.which(tool);
if found: return [found]`; `return None`. -/
def find_size_tool (which : String → Option String) : Option (List String) :=
  match which_first which ["size", "llvm-size"] with
  | some found => some [found]
  | none => none

/-!
Filesystem model for the deletion helpers.  A filesystem is a finite
association list from paths to node kinds (regular file or directory),
together with a set `locked` of paths that the operating system refuses to
remove (the model of a permission failure).  `Path.unlink` on this model
behaves as on POSIX: absent path → `FileNotFoundError`; directory →
`IsADirectoryError`; locked file → `PermissionError`; otherwise the file
is removed.  `shutil.rmtree(target, ignore_errors=True)` removes the
directory and everything below it except locked entries, and never fails.
-/

inductive NodeKind : Type where
  | file : NodeKind
  | dir : NodeKind
deriving DecidableEq

structure FS : Type where
  nodes : List (String × NodeKind)
  locked : List String
deriving DecidableEq

def FS.lookup (fs : FS) (p : String) : Option NodeKind :=
  (fs.nodes.find? (fun e => e.1 == p)).map Prod.snd

/-- Whether `q` lies in the subtree rooted at `p` (it is `p` itself or below it). -/
def underPath (p q : String) : Bool :=
  q == p || q.data.take (p ++ "/").data.length == (p ++ "/").data

/-- Errors that `Path.unlink` can raise in the model. -/
inductive UnlinkError : Type where
  | fileNotFound : UnlinkError
  | isADirectory : UnlinkError
  | permissionError : UnlinkError
deriving DecidableEq

/-- Behavior of `target.unlink()` on the filesystem model. -/
def unlink (fs : FS) (p : String) : Except UnlinkError FS :=
  match fs.lookup p with
  | none => Except.error UnlinkError.fileNotFound
  | some NodeKind.dir => Except.error UnlinkError.isADirectory
  | some NodeKind.file =>
    if fs.locked.contains p then Except.error UnlinkError.permissionError
    else Except.ok ⟨fs.nodes.filter (fun e => e.1 != p), fs.locked⟩

/-- Model of `shutil.rmtree(target, ignore_errors=True)`: remove every node in the
subtree rooted at `p` except locked ones; total — it never signals an
error. -/
def rmtree (fs : FS) (p : String) : FS :=
  ⟨fs.nodes.filter (fun e => !(underPath p e.1) || fs.locked.contains e.1),
   fs.locked⟩

/-- Embedding of `delete_file(path)`:
`try: target.unlink()` — on `FileNotFoundError` return, on
`IsADirectoryError` run `shutil.rmtree(target, ignore_errors=True)`;
any other exception propagates (`Except.error`). -/
def delete_file (fs : FS) (path : String) : Except UnlinkError FS :=
  match unlink fs path with
  | Except.ok fs2 => Except.ok fs2
  | Except.error UnlinkError.fileNotFound => Except.ok fs
  | Except.error UnlinkError.isADirectory => Except.ok (rmtree fs path)
  | Except.error e => Except.error e

/-- Embedding of `delete_files(*paths)`: `for path in paths:
delete_file(path)`; an exception escaping one call aborts the loop. -/
def delete_files (fs : FS) : List String → Except UnlinkError FS
  | [] => Except.ok fs
  | p :: rest =>
    match delete_file fs p with
    | Except.ok fs2 => delete_files fs2 rest
    | Except.error e => Except.error e

theorem pyEndsWith_lower_append (name suffix : String) (hs : pyLower suffix = suffix) :
    pyEndsWith (pyLower (name ++ suffix)) suffix = true := by
  rw [pyLower_append, hs]
  exact pyEndsWith_append _ _

/-- C3: `exe_name` and `shared_lib_name` pick the platform suffix
(`.exe` / `.dll` on Windows, `` / `.so` on POSIX), which is already
lowercase; they return the input unchanged when the lowercased input
already ends with that suffix and otherwise append the suffix. -/
theorem suffix_helpers_spec (w : Bool) (name : String) :
    (pyLower (if w then (".exe") else ("")) = (if w then (".exe") else (""))) ∧
    (pyLower (if w then (".dll") else (".so")) = (if w then (".dll") else (".so"))) ∧
    (pyEndsWith (pyLower name) (if w then (".exe") else ("")) = true →
      exe_name w name = name) ∧
    (pyEndsWith (pyLower name) (if w then (".exe") else ("")) = false →
      exe_name w name = name ++ (if w then (".exe") else (""))) ∧
    (pyEndsWith (pyLower name) (if w then (".dll") else (".so")) = true →
      shared_lib_name w name = name) ∧
    (pyEndsWith (pyLower name) (if w then (".dll") else (".so")) = false →
      shared_lib_name w name = name ++ (if w then (".dll") else (".so"))) := by
  refine ⟨by cases w <;> decide, by cases w <;> decide, ?_, ?_, ?_, ?_⟩ <;>
    intro h <;> simp [exe_name, shared_lib_name, h]

theorem suffix_helpers_spec_witness :
    exe_name true ("foo") = "foo.exe" ∧ shared_lib_name true ("foo.DLL") = "foo.DLL" :=
  ⟨(suffix_helpers_spec true ("foo")).2.2.2.1 (by decide),
   (suffix_helpers_spec true ("foo.DLL")).2.2.2.2.1 (by decide)⟩

/-- C4: on a POSIX-style host the executable suffix is empty, the
empty string is a suffix of every string, so `exe_name` is the
identity on every input, the empty string included. -/
theorem exe_name_posix_identity (x : String) : exe_name false x = x := by
  simp [exe_name, pyEndsWith_empty]

/-- C5: `exe_name` and `shared_lib_name` are idempotent on both kinds of
host: applying the function to its own output returns the output. -/
theorem suffix_helpers_idempotent (w : Bool) (name : String) :
    exe_name w (exe_name w name) = exe_name w name ∧
    shared_lib_name w (shared_lib_name w name) = shared_lib_name w name := by
  constructor
  · cases h : pyEndsWith (pyLower name) (if w then (".exe") else (""))
    · have h2 : exe_name w name = name ++ (if w then (".exe") else ("")) := by
        simp [exe_name, h]
      have h3 := pyEndsWith_lower_append name (if w then (".exe") else (""))
        (by cases w <;> decide)
      rw [h2]
      simp [exe_name, h3]
    · have h2 : exe_name w name = name := by simp [exe_name, h]
      rw [h2]
      exact h2
  · cases h : pyEndsWith (pyLower name) (if w then (".dll") else (".so"))
    · have h2 : shared_lib_name w name = name ++ (if w then (".dll") else (".so")) := by
        simp [shared_lib_name, h]
      have h3 := pyEndsWith_lower_append name (if w then (".dll") else (".so"))
        (by cases w <;> decide)
      rw [h2]
      simp [shared_lib_name, h3]
    · have h2 : shared_lib_name w name = name := by simp [shared_lib_name, h]
      rw [h2]
      exact h2

/-- C10: the helpers never strip, replace or case-normalize anything: the
output is the input itself or the input followed by the platform suffix,
so the input is always a prefix of the output; in particular on Windows
`shared_lib_name "libfoo.so"` is `"libfoo.so.dll"`. -/
theorem suffix_helpers_append_only (w : Bool) (name : String) :
    (exe_name w name = name ∨
      exe_name w name = name ++ (if w then (".exe") else (""))) ∧
    (shared_lib_name w name = name ∨
      shared_lib_name w name = name ++ (if w then (".dll") else (".so"))) ∧
    (∃ t, exe_name w name = name ++ t) ∧
    (∃ t, shared_lib_name w name = name ++ t) ∧
    shared_lib_name true ("libfoo.so") = "libfoo.so.dll" := by
  refine ⟨?_, ?_, ?_, ?_, by decide⟩
  · by_cases h : pyEndsWith (pyLower name) (if w then (".exe") else ("")) = true
    · exact Or.inl (by simp [exe_name, h])
    · exact Or.inr (by simp [exe_name, h])
  · by_cases h : pyEndsWith (pyLower name) (if w then (".dll") else (".so")) = true
    · exact Or.inl (by simp [shared_lib_name, h])
    · exact Or.inr (by simp [shared_lib_name, h])
  · by_cases h : pyEndsWith (pyLower name) (if w then (".exe") else ("")) = true
    · exact ⟨"", by simp [exe_name, h]⟩
    · exact ⟨if w then (".exe") else (""), by simp [exe_name, h]⟩
  · by_cases h : pyEndsWith (pyLower name) (if w then (".dll") else (".so")) = true
    · exact ⟨"", by simp [shared_lib_name, h]⟩
    · exact ⟨if w then (".dll") else (".so"), by simp [shared_lib_name, h]⟩

/-- C8: `python_cmd` returns the running interpreter's executable path
when it is known and non-empty, otherwise the platform fallback
(`python` on Windows, `python3` on POSIX); the result is always a
non-empty string. -/
theorem python_cmd_spec (w : Bool) (ex : Option String) :
    python_cmd w ex ≠ "" ∧
    (∀ e, ex = some e → e ≠ "" → python_cmd w ex = e) ∧
    (ex = none ∨ ex = some ("") →
      python_cmd w ex = if w then ("python") else ("python3")) := by
  refine ⟨?_, ?_, ?_⟩
  · cases ex with
    | none => cases w <;> simp [python_cmd]
    | some e =>
      by_cases he : e = "" <;> cases w <;> simp [python_cmd, he]
  · rintro e rfl he
    simp [python_cmd, he]
  · rintro (rfl | rfl) <;> simp [python_cmd]

theorem python_cmd_spec_witness :
    python_cmd false (some ("/usr/bin/python3.11")) = "/usr/bin/python3.11" ∧
    python_cmd true none = "python" :=
  ⟨(python_cmd_spec false (some ("/usr/bin/python3.11"))).2.1
      "/usr/bin/python3.11" rfl (by decide),
   by simpa using (python_cmd_spec true none).2.2 (Or.inl rfl)⟩

/- Lemmas about the resolution loop shared by `addchain_executable` and
`find_size_tool`.  The hypothesis `hw` says the resolver never returns a
present-but-empty path, which rules out the degenerate falsy string. -/

theorem which_first_eq_none (which : String → Option String) (l : List String)
    (hw : ∀ c, which c ≠ some ("")) :
    (which_first which l = none ↔ ∀ c ∈ l, which c = none) := by
  induction l with
  | nil => simp [which_first]
  | cons a rest ih =>
    cases ha : which a with
    | none => simp [which_first, ha, ih]
    | some g =>
      have hg : ¬(g = "") := fun h => hw a (h ▸ ha)
      simp [which_first, ha, hg]

theorem which_first_eq_some (which : String → Option String) (l : List String)
    (f : String) (hw : ∀ c, which c ≠ some ("")) :
    (which_first which l = some f ↔
      ∃ l₁ c l₂, l = l₁ ++ c :: l₂ ∧ (∀ d ∈ l₁, which d = none) ∧
        which c = some f) := by
  induction l with
  | nil =>
    simp only [which_first]
    constructor
    · intro h
      exact absurd h (by simp)
    · rintro ⟨l₁, c, l₂, hsplit, -, -⟩
      exact absurd hsplit (by simp)
  | cons a rest ih =>
    cases ha : which a with
    | none =>
      rw [which_first, ha, ih]
      constructor
      · rintro ⟨l₁, c, l₂, hsplit, hnone, hc⟩
        exact ⟨a :: l₁, c, l₂, by rw [hsplit]; rfl,
          by
            intro d hd
            rcases List.mem_cons.mp hd with rfl | hd2
            · exact ha
            · exact hnone d hd2,
          hc⟩
      · rintro ⟨l₁, c, l₂, hsplit, hnone, hc⟩
        cases l₁ with
        | nil =>
          rw [List.nil_append] at hsplit
          cases hsplit
          rw [ha] at hc
          exact absurd hc (by simp)
        | cons b l₁ =>
          rw [List.cons_append] at hsplit
          injection hsplit with hb hrest
          subst hb
          exact ⟨l₁, c, l₂, hrest,
            fun d hd => hnone d (List.mem_cons_of_mem _ hd), hc⟩
    | some g =>
      have hg : ¬(g = "") := fun h => hw a (h ▸ ha)
      rw [which_first, ha]
      simp only [hg, if_false]
      constructor
      · intro h
        injection h with h
        exact ⟨[], a, rest, rfl, by simp, by rw [ha, h]⟩
      · rintro ⟨l₁, c, l₂, hsplit, hnone, hc⟩
        cases l₁ with
        | nil =>
          rw [List.nil_append] at hsplit
          cases hsplit
          rw [ha] at hc
          exact hc
        | cons b l₁ =>
          rw [List.cons_append] at hsplit
          injection hsplit with hb hrest
          subst hb
          have := hnone a (List.mem_cons_self _ _)
          rw [this] at ha
          exact absurd ha (by simp)

/-- C7: `find_size_tool` probes `size` then `llvm-size`, returns the first
resolution wrapped as a one-element command list, prefers `size` when both
resolve, and returns the `none` sentinel when neither resolves. -/
theorem find_size_tool_priority (which : String → Option String)
    (hw : ∀ c, which c ≠ some ("")) :
    (∀ s, which ("size") = some s → find_size_tool which = some [s]) ∧
    (∀ s, which ("size") = none → which ("llvm-size") = some s →
      find_size_tool which = some [s]) ∧
    (which ("size") = none → which ("llvm-size") = none →
      find_size_tool which = none) := by
  refine ⟨?_, ?_, ?_⟩
  · intro s hs
    have hne : ¬(s = "") := fun h => hw ("size") (h ▸ hs)
    simp [find_size_tool, which_first, hs, hne]
  · intro s h1 h2
    have hne : ¬(s = "") := fun h => hw ("llvm-size") (h ▸ h2)
    simp [find_size_tool, which_first, h1, h2, hne]
  · intro h1 h2
    simp [find_size_tool, which_first, h1, h2]

theorem find_size_tool_priority_witness :
    find_size_tool
      (fun t => if t = "size" then some ("/usr/bin/size")
                else some ("/usr/bin/llvm-size")) = some ["/usr/bin/size"] :=
  (find_size_tool_priority
      (fun t => if t = "size" then some ("/usr/bin/size")
                else some ("/usr/bin/llvm-size"))
      (by intro c; by_cases hc : c = "size" <;> simp [hc])).1
    "/usr/bin/size" (by simp)

/-- Whether `t` occurs, in `strContains s t`, as a contiguous substring of `s`
(model of Python `t in s`). -/
def strContains (s t : String) : Bool :=
  (List.range (s.data.length + 1)).any
    (fun i => (s.data.drop i).take t.data.length == t.data)

/-- C1: `addchain_executable` reads `ADDCHAIN` (default `"addchain"`),
builds the candidate list — the configured value, plus, only on Windows
and only when the value does not already end in `.exe` case-insensitively,
the value with `.exe` appended — and returns the resolution of the first
candidate that resolves, searching in list order. -/
theorem addchain_executable_resolution (w : Bool)
    (env which : String → Option String) (hw : ∀ c, which c ≠ some ("")) :
    (env ("ADDCHAIN") = none → configuredAddchain env = "addchain") ∧
    (∀ v, env ("ADDCHAIN") = some v → configuredAddchain env = v) ∧
    (w = false ∨ pyEndsWith (pyLower (configuredAddchain env)) ".exe" = true →
      addchainCandidates w (configuredAddchain env) =
        [configuredAddchain env]) ∧
    (w = true → pyEndsWith (pyLower (configuredAddchain env)) ".exe" = false →
      addchainCandidates w (configuredAddchain env) =
        [configuredAddchain env, configuredAddchain env ++ ".exe"]) ∧
    (∀ f, addchain_executable w env which = Except.ok f ↔
      ∃ l₁ c l₂, addchainCandidates w (configuredAddchain env) =
          l₁ ++ c :: l₂ ∧ (∀ d ∈ l₁, which d = none) ∧ which c = some f) := by
  refine ⟨?_, ?_, ?_, ?_, ?_⟩
  · intro h
    simp [configuredAddchain, h]
  · intro v h
    simp [configuredAddchain, h]
  · rintro (rfl | h)
    · simp [addchainCandidates]
    · simp [addchainCandidates, h]
  · rintro rfl h
    simp [addchainCandidates, h]
  · intro f
    rw [addchain_executable]
    cases hfst : which_first which (addchainCandidates w (configuredAddchain env)) with
    | none =>
      simp only []
      constructor
      · intro h
        exact absurd h (by simp)
      · intro hex
        rw [← which_first_eq_some which _ f hw] at hex
        rw [hfst] at hex
        exact absurd hex (by simp)
    | some g =>
      simp only []
      rw [← which_first_eq_some which _ f hw, hfst]
      constructor
      · intro h
        injection h with h
        rw [h]
      · intro h
        injection h with h
        rw [h]

theorem addchain_executable_resolution_witness :
    addchain_executable true
      (fun k => if k = "ADDCHAIN" then some ("ac") else none)
      (fun c => if c = "ac.exe" then some ("/tools/ac.exe") else none) =
      Except.ok ("/tools/ac.exe") :=
  ((addchain_executable_resolution true
      (fun k => if k = "ADDCHAIN" then some ("ac") else none)
      (fun c => if c = "ac.exe" then some ("/tools/ac.exe") else none)
      (by intro c; by_cases hc : c = "ac.exe" <;> simp [hc])).2.2.2.2
    "/tools/ac.exe").mpr
    ⟨["ac"], "ac.exe", [], by decide, by decide, by decide⟩

set_option maxRecDepth 40000 in
/-- C6: `addchain_executable` fails exactly when no candidate resolves,
always with the fixed not-found message, and that message names both the
upstream project URL and the `ADDCHAIN` override variable. -/
theorem addchain_executable_error (w : Bool)
    (env which : String → Option String) (hw : ∀ c, which c ≠ some ("")) :
    (addchain_executable w env which = Except.error addchainNotFoundMsg ↔
      ∀ c ∈ addchainCandidates w (configuredAddchain env), which c = none) ∧
    (∀ e, addchain_executable w env which = Except.error e →
      e = addchainNotFoundMsg) ∧
    strContains addchainNotFoundMsg ("https://github.com/mmcloughlin/addchain") = true ∧
    strContains addchainNotFoundMsg ("ADDCHAIN") = true := by
  refine ⟨?_, ?_, by decide, by decide⟩
  · rw [← which_first_eq_none which _ hw]
    rw [addchain_executable]
    cases hfst : which_first which (addchainCandidates w (configuredAddchain env)) with
    | none => simp
    | some g => simp
  · intro e h
    rw [addchain_executable] at h
    cases hfst : which_first which (addchainCandidates w (configuredAddchain env)) with
    | none =>
      rw [hfst] at h
      injection h with h
      rw [h]
    | some g =>
      rw [hfst] at h
      exact absurd h (by simp)

theorem addchain_executable_error_witness :
    addchain_executable true (fun _ => none) (fun _ => none) =
      Except.error addchainNotFoundMsg :=
  ((addchain_executable_error true (fun _ => none) (fun _ => none)
      (fun _ h => Option.noConfusion h)).1).mpr (fun _ _ => rfl)

/-- C2: `delete_file` signals an error exactly when the underlying removal
fails with something other than "file not found" or "is a directory"; an
absent path is success with the filesystem unchanged; a directory is
handed to the recursive remover (which suppresses every error and removes
every unlocked entry of the subtree) and success is reported. -/
theorem delete_file_error_policy (fs : FS) (p : String) :
    (∀ e, delete_file fs p = Except.error e ↔
      (unlink fs p = Except.error e ∧ e ≠ UnlinkError.fileNotFound ∧
        e ≠ UnlinkError.isADirectory)) ∧
    (fs.lookup p = none → delete_file fs p = Except.ok fs) ∧
    (fs.lookup p = some NodeKind.dir →
      delete_file fs p = Except.ok (rmtree fs p)) ∧
    (∀ q, underPath p q = true → fs.locked.contains q = false →
      (rmtree fs p).lookup q = none) := by
  refine ⟨?_, ?_, ?_, ?_⟩
  · intro e
    rw [delete_file]
    cases hu : unlink fs p with
    | ok fs2 => simp [hu]
    | error e2 =>
      cases e2 <;> cases e <;> simp [hu]
  · intro h
    rw [delete_file, unlink, h]
  · intro h
    rw [delete_file, unlink, h]
  · intro q hq hlock
    rw [rmtree, FS.lookup]
    have hfind : (fs.nodes.filter
        (fun e => !(underPath p e.1) || fs.locked.contains e.1)).find?
        (fun e => e.1 == q) = none := by
      rw [List.find?_eq_none]
      intro x hx hxq
      have hkeep := List.of_mem_filter hx
      have hxq2 : x.1 = q := by
        simpa using hxq
      rw [hxq2, hq, hlock] at hkeep
      simp at hkeep
    rw [hfind]
    rfl

theorem delete_file_error_policy_witness :
    delete_file ⟨[("out", NodeKind.dir), ("out/a.o", NodeKind.file),
        ("keep", NodeKind.file)], []⟩ "missing" =
      Except.ok ⟨[("out", NodeKind.dir), ("out/a.o", NodeKind.file),
        ("keep", NodeKind.file)], []⟩ ∧
    (rmtree ⟨[("out", NodeKind.dir), ("out/a.o", NodeKind.file),
        ("keep", NodeKind.file)], []⟩ "out").lookup ("out/a.o") = none :=
  ⟨(delete_file_error_policy ⟨[("out", NodeKind.dir),
      ("out/a.o", NodeKind.file), ("keep", NodeKind.file)], []⟩
      "missing").2.1 (by decide),
   (delete_file_error_policy ⟨[("out", NodeKind.dir),
      ("out/a.o", NodeKind.file), ("keep", NodeKind.file)], []⟩
      "out").2.2.2 ("out/a.o") (by decide) (by decide)⟩

/-- C9: `delete_files` applies `delete_file` to its paths in argument
order, threading the filesystem state; the first propagated error aborts
the sequence, so later paths are untouched while earlier ones were
already processed. -/
theorem delete_files_sequential (fs : FS) (p : String) (rest : List String) :
    delete_files fs [] = Except.ok fs ∧
    (∀ fs2, delete_file fs p = Except.ok fs2 →
      delete_files fs (p :: rest) = delete_files fs2 rest) ∧
    (∀ e, delete_file fs p = Except.error e →
      delete_files fs (p :: rest) = Except.error e) := by
  refine ⟨rfl, ?_, ?_⟩
  · intro fs2 h
    rw [delete_files, h]
  · intro e h
    rw [delete_files, h]

theorem delete_files_sequential_witness :
    delete_files ⟨[("a", NodeKind.file), ("b", NodeKind.file)], ["b"]⟩
      ("b" :: ["a"]) = Except.error UnlinkError.permissionError :=
  (delete_files_sequential ⟨[("a", NodeKind.file), ("b", NodeKind.file)],
      ["b"]⟩ "b" ["a"]).2.2 UnlinkError.permissionError (by rfl)

end PlatformSupport
